import Mathlib

/-!
Verification of the value-marshalling and batch-write core of
`src/data/setup/setup_dynamo.py`.

Modelling conventions (shallow embedding):
* A Python value reachable from `json.load` (plus the few extra shapes the
  code manipulates) is modelled by the inductive type `PyVal`:
  `None`, `bool`, `int` (unbounded, as in Python), `float`, `str`,
  `list`, and string-keyed `dict`.  A `dict` is modelled as an
  insertion-ordered association list with (in the intended domain)
  distinct keys, matching Python dict iteration order.
* A Python `float` is carried by its textual form (`vFloat s`): for a
  float produced by `str`/`repr` this is its canonical shortest repr, and
  CPython guarantees `float(repr(x)) == x`, so `float` applied to such a
  text is modelled as the identity on the text.  Two distinct texts that
  denote the same binary64 value are distinct model values; no claim
  below distinguishes such aliases.  Underscored numeric literals
  (`1_0.5`) are not modelled.
* `vOther s` stands for a Python object of any other type, carried by its
  `str()` text (only the `str`-fallback branch of the encoder sees it).
* Code that can raise is modelled in `Except Unit`; `.error ()` marks an
  uncaught Python exception.
-/

inductive PyVal where
  | vNone : PyVal
  | vBool : Bool → PyVal
  | vInt : Int → PyVal
  | vFloat : String → PyVal
  | vStr : String → PyVal
  | vList : List PyVal → PyVal
  | vDict : List (String × PyVal) → PyVal
  | vOther : String → PyVal
deriving Repr

open PyVal

/-- ASCII decimal digit test (model of `str.isdigit` restricted to the
ASCII digits; the code only meets ASCII text from JSON numbers/strings). -/
def isAsciiDigit (c : Char) : Bool := decide ('0' ≤ c) && decide (c ≤ '9')

/-- Model of Python `v.isdigit()`: nonempty and all digits. -/
def pyIsdigit (s : String) : Bool := !s.data.isEmpty && s.data.all isAsciiDigit

/-- The integer-text test of `_from_ddb_attr`:
`v.isdigit() or (v.startswith('-') and v[1:].isdigit())`. -/
def pyIntTextOK (s : String) : Bool :=
  pyIsdigit s ||
    (match s.data with
     | '-' :: rest => !rest.isEmpty && rest.all isAsciiDigit
     | _ => false)

/-- Numeric value of a digit character. -/
def digitVal (c : Char) : Nat := c.toNat - 48

/-- Decimal value of a digit list (model of `int` on a digit string). -/
def digitsVal (l : List Char) : Nat := l.foldl (fun a c => 10 * a + digitVal c) 0

/-- Model of Python `int(s)` on the texts the code feeds it
(digits, optionally after a leading minus). -/
def parsePyInt (s : String) : Int :=
  match s.data with
  | [] => 0
  | c :: rest => if c = '-' then -(digitsVal rest : Int) else (digitsVal (c :: rest) : Int)

/-- Digit character of `d < 10`. -/
def digitChar10 : Nat → Char
  | 0 => '0' | 1 => '1' | 2 => '2' | 3 => '3' | 4 => '4'
  | 5 => '5' | 6 => '6' | 7 => '7' | 8 => '8' | 9 => '9'
  | _ => '*'

/-- Fuelled decimal printer for `Nat` (fuel keeps recursion structural so
that terms reduce inside the kernel). -/
def natDigitsAux : Nat → Nat → List Char
  | 0, _ => []
  | fuel + 1, n =>
    if n < 10 then [digitChar10 n]
    else natDigitsAux fuel (n / 10) ++ [digitChar10 (n % 10)]

/-- Decimal digits of a natural number, most significant first. -/
def natDigits (n : Nat) : List Char := natDigitsAux (n + 1) n

/-- Model of Python `str` on an `int`. -/
def intStr (n : Int) : String :=
  if n < 0 then ⟨'-' :: natDigits n.natAbs⟩ else ⟨natDigits n.natAbs⟩

/-- ASCII whitespace stripped by Python numeric conversions. -/
def isPyWs (c : Char) : Bool := c = ' ' || c = '\t' || c = '\n' || c = '\r'

/-- Strip leading and trailing whitespace from a character list. -/
def stripWs (l : List Char) : List Char :=
  ((l.dropWhile isPyWs).reverse.dropWhile isPyWs).reverse

/-- Lower-case an ASCII letter. -/
def lowerAscii (c : Char) : Char :=
  if decide ('A' ≤ c) && decide (c ≤ 'Z') then Char.ofNat (c.toNat + 32) else c

/-- Nonempty all-digit run. -/
def digitsOnly (l : List Char) : Bool := !l.isEmpty && l.all isAsciiDigit

/-- Exponent digits with an optional sign. -/
def signedDigits : List Char → Bool
  | '+' :: rest => digitsOnly rest
  | '-' :: rest => digitsOnly rest
  | l => digitsOnly l

/-- Optional exponent part of a float literal. -/
def expPart : List Char → Bool
  | [] => true
  | 'e' :: rest => signedDigits rest
  | 'E' :: rest => signedDigits rest
  | _ => false

/-- Mantissa of a float literal: digits, then optionally a point and more
digits (at least one digit overall); returns the leftover for `expPart`. -/
def mantissaSplit (l : List Char) : Bool × List Char :=
  let p := l.span isAsciiDigit
  match p.2 with
  | '.' :: rest2 =>
    let q := rest2.span isAsciiDigit
    (!p.1.isEmpty || !q.1.isEmpty, q.2)
  | _ => (!p.1.isEmpty, p.2)

/-- Model of the acceptance domain of Python `float(s)` on a string
(whitespace-stripped, optionally signed, decimal or `inf`/`infinity`/`nan`
case-insensitively; underscored literals are not modelled). -/
def floatTextAccepted (s : String) : Bool :=
  let l := stripWs s.data
  let body := match l with
    | '+' :: r => r
    | '-' :: r => r
    | _ => l
  let lowered := body.map lowerAscii
  lowered = "inf".data || lowered = "infinity".data || lowered = "nan".data ||
    (let m := mantissaSplit body
     m.1 && expPart m.2)

/-- Model of Python `float(s)` on a string: succeeds exactly on the float
grammar, and (per the `vFloat`-as-text convention) carries the text along. -/
def pyFloatParse (s : String) : Option String :=
  if floatTextAccepted s then some s else none

/-- Text of a float that denotes (positive or negative) zero: every
mantissa digit is `0` (so `bool()` of it is `False`). -/
def floatTextDenotesZero (s : String) : Bool :=
  let l := stripWs s.data
  let body := match l with
    | '+' :: r => r
    | '-' :: r => r
    | _ => l
  let mant := body.takeWhile (fun c => !(c = 'e' || c = 'E'))
  digitsOnly (mant.filter isAsciiDigit) && (mant.filter isAsciiDigit).all (· = '0')

/-- Model of Python truthiness `bool(v)` on the modelled domain. -/
def pyTruthy : PyVal → Bool
  | vNone => false
  | vBool b => b
  | vInt n => decide (n ≠ 0)
  | vFloat s => !floatTextDenotesZero s
  | vStr s => !s.data.isEmpty
  | vList xs => !xs.isEmpty
  | vDict kvs => !kvs.isEmpty
  | vOther _ => true

/-- The backslash character (kept out of literals for readability). -/
def bsChar : Char := Char.ofNat 92

/-- The single-quote character. -/
def sqChar : Char := Char.ofNat 39

/-- Python `repr` escaping of one character inside a single-quoted string
(only the backslash and the quote itself need escaping on this domain). -/
def escapePyChar (c : Char) : List Char :=
  if c = bsChar then [bsChar, bsChar]
  else if c = sqChar then [bsChar, sqChar]
  else [c]

/-- Python `repr` of a string, single-quoted. -/
def reprPyStr (s : String) : String :=
  ⟨sqChar :: (s.data.flatMap escapePyChar) ++ [sqChar]⟩

/-- Comma-join. -/
def joinComma : List String → String
  | [] => ""
  | [x] => x
  | x :: xs => x ++ ", " ++ joinComma xs

mutual

/-- Model of Python `repr` on the modelled domain (containers print as in
CPython: `[1, 2]`, `\x7b'k': v\x7d`). -/
def pyReprOf : PyVal → String
  | vNone => "None"
  | vBool b => if b then "True" else "False"
  | vInt n => intStr n
  | vFloat s => s
  | vStr s => reprPyStr s
  | vList xs => "[" ++ joinComma (pyReprList xs) ++ "]"
  | vDict kvs => "\x7b" ++ joinComma (pyReprPairs kvs) ++ "\x7d"
  | vOther s => s

/-- Python repr of each list element. -/
def pyReprList : List PyVal → List String
  | [] => []
  | x :: xs => pyReprOf x :: pyReprList xs

/-- Python repr of each dict entry. -/
def pyReprPairs : List (String × PyVal) → List String
  | [] => []
  | (k, v) :: xs => (reprPyStr k ++ ": " ++ pyReprOf v) :: pyReprPairs xs

end

/-- Model of Python `str(v)`: the string itself for a `str`, the carried
`str()` text for a foreign object, `repr` otherwise. -/
def pyStrOf : PyVal → String
  | vStr s => s
  | vOther s => s
  | v => pyReprOf v

/-- The wire tags recognised by `normalize_record`'s sniffing test
(`("S", "N", "BOOL", "L", "M", "NULL")` in the source). -/
def recognizedTags : List String := ["S", "N", "BOOL", "L", "M", "NULL"]

/-- The `N`-tag payload conversion of `_from_ddb_attr` (the body of its
`try` block, with the `except` fallback): on a string, `int` if the text
is digits with an optional leading minus, else `float`, falling back to
the raw text when `float` raises; on a non-string, `float(v)` — the
identity text for a float, `n.0` for an int, `1.0`/`0.0` for a bool, and
the caught `TypeError` fallback (return `v`) for everything else. -/
def fromNPayload (v : PyVal) : PyVal :=
  match v with
  | vStr s =>
    if pyIntTextOK s then vInt (parsePyInt s)
    else
      match pyFloatParse s with
      | some f => vFloat f
      | none => vStr s
  | vInt n => vFloat (intStr n ++ ".0")
  | vFloat s => vFloat s
  | vBool b => vFloat (if b then "1.0" else "0.0")
  | w => w

mutual

/-- Model of `_from_ddb_attr`.  A non-dict or a dict without exactly one
entry is returned as-is; otherwise the sole `(t, v)` entry is dispatched
on the tag `t`, with the final `return v` as payload pass-through for
unrecognised tags.  In the `L` branch the source iterates the payload:
a list decodes elementwise; a string yields its characters and a dict its
keys (both one-character/key strings, on which `_from_ddb_attr` is the
identity, so the mapped call is inlined); any other payload raises
`TypeError` (`.error ()`).  In the `M` branch a non-dict payload has no
`.items()` and raises. -/
def from_ddb_attr : PyVal → Except Unit PyVal
  | vDict [(t, v)] =>
    if t = "S" then .ok v
    else if t = "N" then .ok (fromNPayload v)
    else if t = "BOOL" then .ok (vBool (pyTruthy v))
    else if t = "NULL" then .ok vNone
    else if t = "L" then
      match v with
      | vList xs =>
        match from_ddb_attr_list xs with
        | .ok ys => .ok (vList ys)
        | .error e => .error e
      | vStr s => .ok (vList (s.data.map (fun c => vStr ⟨[c]⟩)))
      | vDict kvs => .ok (vList (kvs.map (fun kv => vStr kv.1)))
      | _ => .error ()
    else if t = "M" then
      match v with
      | vDict kvs =>
        match from_ddb_attr_pairs kvs with
        | .ok ys => .ok (vDict ys)
        | .error e => .error e
      | _ => .error ()
    else .ok v
  | attr => .ok attr

/-- The decoder `_from_ddb_attr` mapped over list elements, propagating exceptions. -/
def from_ddb_attr_list : List PyVal → Except Unit (List PyVal)
  | [] => .ok []
  | x :: xs =>
    match from_ddb_attr x with
    | .ok y =>
      match from_ddb_attr_list xs with
      | .ok ys => .ok (y :: ys)
      | .error e => .error e
    | .error e => .error e

/-- The decoder `_from_ddb_attr` mapped over dict values, propagating exceptions. -/
def from_ddb_attr_pairs :
    List (String × PyVal) → Except Unit (List (String × PyVal))
  | [] => .ok []
  | (k, x) :: xs =>
    match from_ddb_attr x with
    | .ok y =>
      match from_ddb_attr_pairs xs with
      | .ok ys => .ok ((k, y) :: ys)
      | .error e => .error e
    | .error e => .error e

end

/-- The sniffing test of `normalize_record`: is this value a dict with
exactly one entry whose key is a recognised wire tag? -/
def isWireTagged (v : PyVal) : Bool :=
  match v with
  | vDict [(t, _)] => recognizedTags.contains t
  | _ => false

/-- Model of `normalize_record`: if any top-level value looks wire-tagged,
decode every attribute through `_from_ddb_attr`; otherwise return the
mapping unchanged. -/
def normalize_record (obj : List (String × PyVal)) :
    Except Unit (List (String × PyVal)) :=
  if obj.any (fun kv => isWireTagged kv.2) then from_ddb_attr_pairs obj
  else .ok obj

mutual

/-- Model of the inner `conv` of `to_ddb_item`.  The source dispatches by
`isinstance` in the order None, bool, int/float (bools excluded), str,
list, dict, with a `str(v)` fallback; the model's constructors are
disjoint, and the bool-before-number order of the source is reflected in
`vBool` mapping to the Boolean tag and never the Number tag. -/
def conv : PyVal → PyVal
  | vNone => vDict [("NULL", vBool true)]
  | vBool b => vDict [("BOOL", vBool b)]
  | vInt n => vDict [("N", vStr (intStr n))]
  | vFloat s => vDict [("N", vStr s)]
  | vStr s => vDict [("S", vStr s)]
  | vList xs => vDict [("L", vList (convList xs))]
  | vDict kvs => vDict [("M", vDict (convPairs kvs))]
  | vOther s => vDict [("S", vStr s)]

/-- The encoder `conv` mapped over list elements. -/
def convList : List PyVal → List PyVal
  | [] => []
  | x :: xs => conv x :: convList xs

/-- The encoder `conv` mapped over dict values. -/
def convPairs : List (String × PyVal) → List (String × PyVal)
  | [] => []
  | (k, x) :: xs => (k, conv x) :: convPairs xs

end

/-- Model of `to_ddb_item`: convert a plain record to an attribute map. -/
def to_ddb_item (d : List (String × PyVal)) : List (String × PyVal) :=
  convPairs d

/-- A record: one row, as a string-keyed mapping. -/
abbrev DRecord := List (String × PyVal)

/-- Wire shape of `RequestItems` and `UnprocessedItems`: a mapping from table name to the
list of request dicts, as in the batch-write wire shape. -/
abbrev RequestItems := List (String × List PyVal)

/-- One `PutRequest` wrapper around an encoded item. -/
def putRequest (item : DRecord) : PyVal :=
  vDict [("PutRequest", vDict [("Item", vDict item)])]

/-- Model of `sum(len(v) for v in unprocessed.values())`. -/
def unprocessedCount (u : RequestItems) : Nat :=
  (u.map (fun kv => kv.2.length)).sum

/-- Fuelled worker for `chunkList` (fuel bounds the number of chunks and
keeps the recursion structural, so terms reduce inside the kernel; with
fuel `≥ length` the middle arm is unreachable). -/
def chunkListAux (c : Nat) : Nat → List α → List (List α)
  | _, [] => []
  | 0, l => [l]
  | fuel + 1, x :: xs => (x :: xs.take (c - 1)) :: chunkListAux c fuel (xs.drop (c - 1))

/-- The chunking of `batch_write_items`:
`[records[i : i + batch_size] for i in range(0, len(records), batch_size)]`.
Defined for `batch_size ≥ 1`; at `batch_size = 0` the Python `range`
raises, and this model instead produces singleton chunks (no claim uses
that case). -/
def chunkList (c : Nat) (l : List α) : List (List α) :=
  chunkListAux c l.length l

/-- Fuel irrelevance for `chunkListAux`: any two sufficient fuels agree. -/
theorem chunkListAux_fuel (c : Nat) :
    ∀ (f g : Nat) (l : List α), l.length ≤ f → l.length ≤ g →
      chunkListAux c f l = chunkListAux c g l := by
  intro f
  induction f with
  | zero =>
    intro g l hf _
    cases l with
    | nil => cases g <;> rfl
    | cons x xs => simp at hf
  | succ f ih =>
    intro g l hf hg
    cases l with
    | nil => cases g <;> rfl
    | cons x xs =>
      cases g with
      | zero => simp at hg
      | succ g =>
        have hd : (xs.drop (c - 1)).length ≤ f := by
          simp only [List.length_drop]
          simp at hf
          omega
        have hd2 : (xs.drop (c - 1)).length ≤ g := by
          simp only [List.length_drop]
          simp at hg
          omega
        simp only [chunkListAux]
        rw [ih g (xs.drop (c - 1)) hd hd2]

/-- The defining equations of the chunking, fuel-free. -/
theorem chunkList_nil (c : Nat) : chunkList c ([] : List α) = [] := rfl

/-- Unfolding a nonempty list: one chunk of `c` elements, then the rest. -/
theorem chunkList_cons (c : Nat) (x : α) (xs : List α) :
    chunkList c (x :: xs) = (x :: xs.take (c - 1)) :: chunkList c (xs.drop (c - 1)) := by
  show chunkListAux c (xs.length + 1) (x :: xs) = _
  simp only [chunkListAux]
  rw [chunkListAux_fuel c xs.length (xs.drop (c - 1)).length (xs.drop (c - 1))
    (by simp [List.length_drop]) (le_refl _)]
  rfl

/-- The request map first submitted for a chunk:
`{table_name: [{"PutRequest": {"Item": to_ddb_item(rec)}} for rec in chunk]}`. -/
def initialRequest (table_name : String) (chunk : List DRecord) : RequestItems :=
  [(table_name, chunk.map (fun rec => putRequest (to_ddb_item rec)))]

/-- The retry loop of `batch_write_items` for one chunk, with the backend
(`dynamodb.batch_write_item`) abstracted as a state-threaded black box
returning the `UnprocessedItems` of the response.  Returns the submitted
request maps in order, the `time.sleep` durations in order (backoff in
`ℚ`; the source's `0.2` and doubling are exact in binary64, so the
rational model follows the float computation exactly), and the final
backend state. -/
def retry_loop (backend : σ → RequestItems → RequestItems × σ) :
    Nat → σ → RequestItems → ℚ → List RequestItems × List ℚ × σ
  | 0, s, _, _ => ([], [], s)
  | n + 1, s, request_items, backoff =>
    let r := backend s request_items
    if unprocessedCount r.1 = 0 then ([request_items], [], r.2)
    else
      let rest := retry_loop backend n r.2 r.1 (min (backoff * 2) 5)
      (request_items :: rest.1, backoff :: rest.2.1, rest.2.2)

/-- The per-chunk trace of `batch_write_items`: the submitted request maps
and the sleep durations. -/
abbrev ChunkTrace := List RequestItems × List ℚ

/-- The `for i, chunk in enumerate(chunks, 1)` loop of `batch_write_items`:
process each chunk in order with a fresh `backoff = 0.2`, threading the
backend state; collect each chunk's trace. -/
def write_chunks (backend : σ → RequestItems → RequestItems × σ)
    (table_name : String) (max_retries : Nat) :
    σ → List (List DRecord) → List ChunkTrace × σ
  | s, [] => ([], s)
  | s, chunk :: rest =>
    let r := retry_loop backend max_retries s (initialRequest table_name chunk) (1 / 5)
    let next := write_chunks backend table_name max_retries r.2.2 rest
    ((r.1, r.2.1) :: next.1, next.2)

/-- Model of `batch_write_items` (defaults in the source:
`batch_size = 25`, `max_retries = 5`): chunk the records, then drive each
chunk through the retry loop.  The function is total — exhausted retries
fall through silently, and the next chunk proceeds. -/
def batch_write_items (backend : σ → RequestItems → RequestItems × σ)
    (s₀ : σ) (table_name : String) (records : List DRecord)
    (batch_size max_retries : Nat) : List ChunkTrace × σ :=
  write_chunks backend table_name max_retries s₀ (chunkList batch_size records)

/-- First value bound at a key (Python dict lookup, keys distinct). -/
def lookupKey (r : DRecord) (k : String) : Option PyVal :=
  (r.find? (fun kv => kv.1 = k)).map (fun kv => kv.2)

/-- Python `k in r`. -/
def hasKey (r : DRecord) (k : String) : Bool := (lookupKey r k).isSome

/-- Python `r[k] = v` on an existing key: replace the value in place,
preserving insertion order. -/
def setKey (r : DRecord) (k : String) (v : PyVal) : DRecord :=
  r.map (fun kv => if kv.1 = k then (k, v) else kv)

/-- Is the value a Python `str`? -/
def isStrVal : PyVal → Bool
  | vStr _ => true
  | _ => false

/-- The pre-write filter of `main`:
`records = [r for r in records if "summarize_job_name" in r]`. -/
def filter_records (records : List DRecord) : List DRecord :=
  records.filter (fun r => hasKey r "summarize_job_name")

/-- The secondary-key coercion of `main`: if `patient_id` is present and
not a `str`, replace it by `str(value)`. -/
def coerce_patient_id (r : DRecord) : DRecord :=
  match lookupKey r "patient_id" with
  | some v => if isStrVal v then r else setKey r "patient_id" (vStr (pyStrOf v))
  | none => r

/-- The records `main` hands to `batch_write_items`: filtered on the
primary key, then coerced on the secondary key. -/
def prepare_records (records : List DRecord) : List DRecord :=
  (filter_records records).map coerce_patient_id

mutual

/-- The Generic-Value domain of the round-trip claim: values built from
null, booleans, integers, floats (texts that `float` accepts and that are
not integer-digit texts — true of every CPython float repr), strings not
composed solely of digits (optionally with a leading minus), sequences
and string-keyed mappings; foreign objects are excluded. -/
def goodVal : PyVal → Bool
  | vNone => true
  | vBool _ => true
  | vInt _ => true
  | vFloat s => floatTextAccepted s && !pyIntTextOK s
  | vStr s => !pyIntTextOK s
  | vList xs => goodValList xs
  | vDict kvs => goodValPairs kvs
  | vOther _ => false

/-- The predicate `goodVal` on every element. -/
def goodValList : List PyVal → Bool
  | [] => true
  | x :: xs => goodVal x && goodValList xs

/-- The predicate `goodVal` on every mapping value. -/
def goodValPairs : List (String × PyVal) → Bool
  | [] => true
  | (_, x) :: xs => goodVal x && goodValPairs xs

end

theorem digitsVal_append_single (l : List Char) (c : Char) :
    digitsVal (l ++ [c]) = 10 * digitsVal l + digitVal c := by
  simp [digitsVal, List.foldl_append]

theorem digitChar10_spec (d : Nat) (hd : d < 10) :
    isAsciiDigit (digitChar10 d) = true ∧ digitVal (digitChar10 d) = d := by
  interval_cases d <;> exact ⟨by decide, by decide⟩

theorem natDigitsAux_spec (fuel : Nat) :
    ∀ n, n < fuel →
      natDigitsAux fuel n ≠ [] ∧ (natDigitsAux fuel n).all isAsciiDigit = true ∧
        digitsVal (natDigitsAux fuel n) = n := by
  induction fuel with
  | zero => intro n hn; omega
  | succ fuel ih =>
    intro n hn
    by_cases h10 : n < 10
    · refine ⟨by simp [natDigitsAux, h10], ?_, ?_⟩
      · simp [natDigitsAux, h10, (digitChar10_spec n h10).1]
      · simp [natDigitsAux, h10, digitsVal, (digitChar10_spec n h10).2]
    · have hdiv : n / 10 < fuel := by
        have : n / 10 < n := Nat.div_lt_self (by omega) (by omega)
        omega
      obtain ⟨hne, hall, hval⟩ := ih (n / 10) hdiv
      have hmod : n % 10 < 10 := Nat.mod_lt _ (by omega)
      refine ⟨by simp [natDigitsAux, h10], ?_, ?_⟩
      · simp only [natDigitsAux, if_neg h10, List.all_append, List.all_cons,
          List.all_nil, Bool.and_true]
        simp [hall, (digitChar10_spec _ hmod).1]
      · simp only [natDigitsAux, if_neg h10]
        rw [digitsVal_append_single, hval, (digitChar10_spec _ hmod).2]
        omega

theorem natDigits_spec (n : Nat) :
    natDigits n ≠ [] ∧ (natDigits n).all isAsciiDigit = true ∧
      digitsVal (natDigits n) = n :=
  natDigitsAux_spec (n + 1) n (Nat.lt_succ_self n)

theorem isAsciiDigit_ne_minus {c : Char} (h : isAsciiDigit c = true) : c ≠ '-' := by
  intro hc; subst hc; simp [isAsciiDigit] at h

/-- The text `str(n)` of an integer passes the integer-text test of the code. -/
theorem pyIntTextOK_intStr (n : Int) : pyIntTextOK (intStr n) = true := by
  obtain ⟨hne, hall, -⟩ := natDigits_spec n.natAbs
  by_cases hs : n < 0
  · simp only [intStr, if_pos hs]
    cases hd : natDigits n.natAbs with
    | nil => exact absurd hd hne
    | cons c rest =>
      simp only [pyIntTextOK, pyIsdigit]
      have : (('-' :: natDigits n.natAbs).all isAsciiDigit) = false := by
        simp [List.all_cons, isAsciiDigit]
      simp only [hd] at hall ⊢
      simp [hall, List.isEmpty_iff]
  · simp only [intStr, if_neg hs]
    simp [pyIntTextOK, pyIsdigit, hall, List.isEmpty_iff, hne]

/-- Parsing back the printed integer: `int(str(n)) = n` on the texts the code builds. -/
theorem parsePyInt_intStr (n : Int) : parsePyInt (intStr n) = n := by
  obtain ⟨hne, hall, hval⟩ := natDigits_spec n.natAbs
  by_cases hs : n < 0
  · simp only [intStr, if_pos hs, parsePyInt, if_true]
    rw [hval]
    omega
  · simp only [intStr, if_neg hs, parsePyInt]
    cases hd : natDigits n.natAbs with
    | nil => exact absurd hd hne
    | cons c rest =>
      rw [hd] at hall hval
      have hc : isAsciiDigit c = true := by
        simp [List.all_cons] at hall; exact hall.1
      simp only [if_neg (isAsciiDigit_ne_minus hc), hval]
      omega

/-- The text `str(n)` decodes back to `n` in the `N`-branch payload rule. -/
theorem fromNPayload_intStr (n : Int) : fromNPayload (vStr (intStr n)) = vInt n := by
  simp [fromNPayload, pyIntTextOK_intStr, parsePyInt_intStr]

/-- A float text (accepted by `float`, not integer-shaped) decodes back to
itself in the `N`-branch payload rule. -/
theorem fromNPayload_floatText (s : String) (hf : floatTextAccepted s = true)
    (hi : pyIntTextOK s = false) : fromNPayload (vStr s) = vFloat s := by
  simp [fromNPayload, hi, pyFloatParse, hf]

mutual

/-- The decoder `_from_ddb_attr` inverts the per-attribute encoding `conv` on the
Generic-Value domain. -/
theorem from_ddb_attr_conv : ∀ v : PyVal, goodVal v = true → from_ddb_attr (conv v) = .ok v
  | vNone, _ => rfl
  | vBool _, _ => rfl
  | vInt n, _ => by
    show Except.ok (fromNPayload (vStr (intStr n))) = Except.ok (vInt n)
    rw [fromNPayload_intStr]
  | vFloat s, h => by
    have hh : floatTextAccepted s = true ∧ pyIntTextOK s = false := by
      simpa [goodVal] using h
    show Except.ok (fromNPayload (vStr s)) = Except.ok (vFloat s)
    rw [fromNPayload_floatText s hh.1 hh.2]
  | vStr _, _ => rfl
  | vList xs, h => by
    have hg : goodValList xs = true := by simpa [goodVal] using h
    have hl := from_ddb_attr_conv_list xs hg
    show (match from_ddb_attr_list (convList xs) with
          | .ok ys => Except.ok (vList ys)
          | .error e => Except.error e) = Except.ok (vList xs)
    rw [hl]
  | vDict kvs, h => by
    have hg : goodValPairs kvs = true := by simpa [goodVal] using h
    have hp := from_ddb_attr_conv_pairs kvs hg
    show (match from_ddb_attr_pairs (convPairs kvs) with
          | .ok ys => Except.ok (vDict ys)
          | .error e => Except.error e) = Except.ok (vDict kvs)
    rw [hp]
  | vOther _, h => by simp [goodVal] at h

/-- Elementwise inversion for lists. -/
theorem from_ddb_attr_conv_list :
    ∀ xs : List PyVal, goodValList xs = true → from_ddb_attr_list (convList xs) = .ok xs
  | [], _ => rfl
  | x :: xs, h => by
    have hh : goodVal x = true ∧ goodValList xs = true := by
      simpa [goodValList, Bool.and_eq_true] using h
    have h1 := from_ddb_attr_conv x hh.1
    have h2 := from_ddb_attr_conv_list xs hh.2
    show (match from_ddb_attr (conv x) with
          | .ok y =>
            (match from_ddb_attr_list (convList xs) with
             | .ok ys => Except.ok (y :: ys)
             | .error e => Except.error e)
          | .error e => Except.error e) = Except.ok (x :: xs)
    rw [h1, h2]

/-- Valuewise inversion for mappings. -/
theorem from_ddb_attr_conv_pairs :
    ∀ kvs : List (String × PyVal), goodValPairs kvs = true →
      from_ddb_attr_pairs (convPairs kvs) = .ok kvs
  | [], _ => rfl
  | (k, x) :: xs, h => by
    have hh : goodVal x = true ∧ goodValPairs xs = true := by
      simpa [goodValPairs, Bool.and_eq_true] using h
    have h1 := from_ddb_attr_conv x hh.1
    have h2 := from_ddb_attr_conv_pairs xs hh.2
    show (match from_ddb_attr (conv x) with
          | .ok y =>
            (match from_ddb_attr_pairs (convPairs xs) with
             | .ok ys => Except.ok ((k, y) :: ys)
             | .error e => Except.error e)
          | .error e => Except.error e) = Except.ok ((k, x) :: xs)
    rw [h1, h2]

end

/-- Every encoded attribute is a single-entry dict with a recognised tag,
so `normalize_record`'s sniffing test always fires on encoder output. -/
theorem conv_isWireTagged (v : PyVal) : isWireTagged (conv v) = true := by
  cases v <;> rfl

/-- Record-level round trip: decoding the encoding of a Generic-Value
record gives the record back. -/
theorem normalize_to_ddb (d : DRecord) (h : goodValPairs d = true) :
    normalize_record (to_ddb_item d) = .ok d := by
  cases d with
  | nil => rfl
  | cons kv rest =>
    have hw : ((to_ddb_item (kv :: rest)).any fun p => isWireTagged p.2) = true := by
      cases kv with
      | mk k v => simp [to_ddb_item, convPairs, conv_isWireTagged]
    simp only [normalize_record, hw, if_true]
    exact from_ddb_attr_conv_pairs _ h

/-- C1.  Round-trip: for every Generic Value built from null, booleans,
integers, floats, strings not composed solely of digits (optionally with
a leading minus), sequences and string-keyed mappings (any depth),
decoding the encoding gives the value back:
`normalize_record (to_ddb_item d) = .ok d` for record-shaped values, and
`_from_ddb_attr` inverts the per-attribute encoding `conv` produced by
`to_ddb_item`. -/
theorem c1_round_trip :
    (∀ d : DRecord, goodValPairs d = true → normalize_record (to_ddb_item d) = .ok d)
    ∧ (∀ v : PyVal, goodVal v = true → from_ddb_attr (conv v) = .ok v) :=
  ⟨normalize_to_ddb, from_ddb_attr_conv⟩

/-- Witness for C1 at a concrete record exercising every value shape. -/
theorem c1_round_trip_witness :
    normalize_record (to_ddb_item
        [("summarize_job_name", vStr "job-1"),
         ("count", vInt (-7)),
         ("score", vFloat "3.5"),
         ("flag", vBool true),
         ("note", vNone),
         ("tags", vList [vStr "a", vInt 2, vNone]),
         ("meta", vDict [("k", vStr "v")])]) =
      .ok [("summarize_job_name", vStr "job-1"),
         ("count", vInt (-7)),
         ("score", vFloat "3.5"),
         ("flag", vBool true),
         ("note", vNone),
         ("tags", vList [vStr "a", vInt 2, vNone]),
         ("meta", vDict [("k", vStr "v")])]
    ∧ from_ddb_attr (conv (vFloat "2e-3")) = .ok (vFloat "2e-3") :=
  ⟨c1_round_trip.1 _ (by rfl), c1_round_trip.2 _ (by rfl)⟩

/-- C4.  Tag-sniffing dispatch of `normalize_record`: if at least one
top-level attribute value is a single-key mapping whose sole key is a
recognised tag, every attribute goes through the wire-decode rule
(`_from_ddb_attr`); otherwise the mapping is returned unchanged — in
particular decode of an already-plain mapping is the identity. -/
theorem c4_tag_sniffing (obj : List (String × PyVal)) :
    ((obj.any fun kv => isWireTagged kv.2) = true →
      normalize_record obj = from_ddb_attr_pairs obj)
    ∧ ((obj.any fun kv => isWireTagged kv.2) = false →
      normalize_record obj = .ok obj) := by
  constructor
  · intro h; simp [normalize_record, h]
  · intro h; simp [normalize_record, h]

/-- Witness for C4: one wire-tagged mapping is fully unwrapped, one plain
mapping passes through unchanged. -/
theorem c4_tag_sniffing_witness :
    normalize_record [("a", vDict [("N", vStr "12")]), ("b", vStr "x")] =
      from_ddb_attr_pairs [("a", vDict [("N", vStr "12")]), ("b", vStr "x")]
    ∧ normalize_record [("a", vStr "x"), ("b", vDict [("S", vStr "p"), ("T", vStr "q")])] =
      .ok [("a", vStr "x"), ("b", vDict [("S", vStr "p"), ("T", vStr "q")])] :=
  ⟨(c4_tag_sniffing _).1 (by rfl), (c4_tag_sniffing _).2 (by rfl)⟩

/-- C6.  The `N`-tag decode rule on a textual payload `t`: the integer
parse of `t` when `t` is digits with an optional leading minus, otherwise
the float parse of `t`, and the raw text itself when the float parse
fails; every case returns normally (`.ok`), never raising. -/
theorem c6_number_decode (t : String) :
    (pyIntTextOK t = true →
      from_ddb_attr (vDict [("N", vStr t)]) = .ok (vInt (parsePyInt t)))
    ∧ (pyIntTextOK t = false → ∀ f, pyFloatParse t = some f →
      from_ddb_attr (vDict [("N", vStr t)]) = .ok (vFloat f))
    ∧ (pyIntTextOK t = false → pyFloatParse t = none →
      from_ddb_attr (vDict [("N", vStr t)]) = .ok (vStr t)) := by
  refine ⟨fun hi => ?_, fun hi f hf => ?_, fun hi hf => ?_⟩ <;>
    · show Except.ok (fromNPayload (vStr t)) = _
      simp [fromNPayload, hi]
      try simp [hf]

/-- Witness for C6: an integer text, a float text, and a malformed text. -/
theorem c6_number_decode_witness :
    from_ddb_attr (vDict [("N", vStr "-42")]) = .ok (vInt (parsePyInt "-42"))
    ∧ from_ddb_attr (vDict [("N", vStr "3.5")]) = .ok (vFloat "3.5")
    ∧ from_ddb_attr (vDict [("N", vStr "abc")]) = .ok (vStr "abc") :=
  ⟨(c6_number_decode "-42").1 (by rfl),
   (c6_number_decode "3.5").2.1 (by rfl) "3.5" (by rfl),
   (c6_number_decode "abc").2.2 (by rfl) (by rfl)⟩

/-- C7.  The encode mapping rules of `to_ddb_item`'s `conv`: null to the
Null tag, booleans to the Boolean tag (never the Number tag), integers
and floats to a Number tag holding their decimal text, strings to the
String tag, sequences to a List tag of recursively encoded elements,
mappings to a Map tag of recursively encoded values, any other value to a
String tag of its textual representation; `conv` is total, and encoding
`-7` yields text `-7`, `3.5` yields `3.5`, `true` a Boolean tag. -/
theorem c7_encode_rules :
    (conv vNone = vDict [("NULL", vBool true)])
    ∧ (∀ b, conv (vBool b) = vDict [("BOOL", vBool b)])
    ∧ (∀ n, conv (vInt n) = vDict [("N", vStr (intStr n))])
    ∧ (∀ s, conv (vFloat s) = vDict [("N", vStr s)])
    ∧ (∀ s, conv (vStr s) = vDict [("S", vStr s)])
    ∧ (∀ xs, conv (vList xs) = vDict [("L", vList (convList xs))])
    ∧ (∀ kvs, conv (vDict kvs) = vDict [("M", vDict (convPairs kvs))])
    ∧ (∀ s, conv (vOther s) = vDict [("S", vStr s)])
    ∧ conv (vInt (-7)) = vDict [("N", vStr "-7")]
    ∧ conv (vFloat "3.5") = vDict [("N", vStr "3.5")]
    ∧ conv (vBool true) = vDict [("BOOL", vBool true)] :=
  ⟨rfl, fun _ => rfl, fun _ => rfl, fun _ => rfl, fun _ => rfl,
    fun _ => rfl, fun _ => rfl, fun _ => rfl, by rfl, rfl, rfl⟩

/-- Is the value a dict with exactly one entry? -/
def isSingleEntryDict : PyVal → Bool
  | vDict [_] => true
  | _ => false

/-- Can Python iterate the value (`for x in v`)? On the modelled domain:
lists, strings and dicts. -/
def isIterable : PyVal → Bool
  | vList _ => true
  | vStr _ => true
  | vDict _ => true
  | _ => false

/-- Is the value a dict? -/
def isDictVal : PyVal → Bool
  | vDict _ => true
  | _ => false

/-- Counterexample to C5 as stated: on the unrecognised single-key wrapper
`\x7b"X": 1\x7d`, `_from_ddb_attr` returns the payload `1`, not the
wrapper; and on the malformed List-tag wrapper `\x7b"L": 5\x7d` it raises
(`TypeError`: iterating an int) instead of passing the wrapper through. -/
theorem c5_counterexample :
    from_ddb_attr (vDict [("X", vInt 1)]) = .ok (vInt 1)
    ∧ from_ddb_attr (vDict [("X", vInt 1)]) ≠ .ok (vDict [("X", vInt 1)])
    ∧ from_ddb_attr (vDict [("L", vInt 5)]) = .error () := by
  refine ⟨rfl, ?_, rfl⟩
  intro h
  rw [show from_ddb_attr (vDict [("X", vInt 1)]) = .ok (vInt 1) from rfl] at h
  simp at h

/-- C5 amended.  Non-mapping attributes and mappings without exactly one
entry are returned as-is; a single-key mapping with an unrecognised sole
key is decoded to its payload value (pass-through of the inner value, not
of the wrapper), without raising; but a recognised `L`-tag wrapper whose
payload is not iterable, and a recognised `M`-tag wrapper whose payload
is not a mapping, raise instead of passing through. -/
theorem c5_passthrough_amended :
    (∀ attr : PyVal, isSingleEntryDict attr = false → from_ddb_attr attr = .ok attr)
    ∧ (∀ (k : String) (v : PyVal), recognizedTags.contains k = false →
        from_ddb_attr (vDict [(k, v)]) = .ok v)
    ∧ (∀ v : PyVal, isIterable v = false → from_ddb_attr (vDict [("L", v)]) = .error ())
    ∧ (∀ v : PyVal, isDictVal v = false → from_ddb_attr (vDict [("M", v)]) = .error ()) := by
  refine ⟨?_, ?_, ?_, ?_⟩
  · intro attr h
    match attr with
    | vNone | vBool _ | vInt _ | vFloat _ | vStr _ | vOther _ => rfl
    | vList _ => rfl
    | vDict [] => rfl
    | vDict [_] => simp [isSingleEntryDict] at h
    | vDict (_ :: _ :: _) => rfl
  · intro k v h
    have h' : ¬(k = "S" ∨ k = "N" ∨ k = "BOOL" ∨ k = "L" ∨ k = "M" ∨ k = "NULL") := by
      intro hc
      rcases hc with rfl | rfl | rfl | rfl | rfl | rfl <;> simp [recognizedTags] at h
    push_neg at h'
    obtain ⟨h1, h2, h3, h4, h5, h6⟩ := h'
    rw [from_ddb_attr.eq_def]
    simp only [h1, h2, h3, h4, h5, h6, if_false, ite_false]
  · intro v h
    match v with
    | vNone | vBool _ | vInt _ | vFloat _ | vOther _ => rfl
    | vList _ | vStr _ | vDict _ => simp [isIterable] at h
  · intro v h
    match v with
    | vNone | vBool _ | vInt _ | vFloat _ | vStr _ | vList _ | vOther _ => rfl
    | vDict _ => simp [isDictVal] at h

/-- Witness for the amended C5 at concrete inputs of each kind. -/
theorem c5_passthrough_amended_witness :
    from_ddb_attr (vInt 3) = .ok (vInt 3)
    ∧ from_ddb_attr (vDict [("X", vBool true)]) = .ok (vBool true)
    ∧ from_ddb_attr (vDict [("L", vNone)]) = .error ()
    ∧ from_ddb_attr (vDict [("M", vInt 0)]) = .error () :=
  ⟨c5_passthrough_amended.1 (vInt 3) rfl,
   c5_passthrough_amended.2.1 "X" (vBool true) rfl,
   c5_passthrough_amended.2.2.1 vNone rfl,
   c5_passthrough_amended.2.2.2 (vInt 0) rfl⟩

/-- Decoding a mapping valuewise never changes its key sequence. -/
theorem from_ddb_attr_pairs_keys (kvs : List (String × PyVal)) :
    ∀ out, from_ddb_attr_pairs kvs = .ok out → out.map Prod.fst = kvs.map Prod.fst := by
  induction kvs with
  | nil =>
    intro out h
    simp only [from_ddb_attr_pairs] at h
    cases h
    rfl
  | cons kv rest ih =>
    intro out h
    obtain ⟨k, x⟩ := kv
    cases hx : from_ddb_attr x with
    | error e => simp [from_ddb_attr_pairs, hx] at h
    | ok y =>
      cases hr : from_ddb_attr_pairs rest with
      | error e => simp [from_ddb_attr_pairs, hx, hr] at h
      | ok ys =>
        simp only [from_ddb_attr_pairs, hx, hr] at h
        cases h
        simp [ih ys hr]

/-- C10.  Key-set preservation: whenever `normalize_record` returns a
mapping, its sequence of top-level keys (hence the key set) is exactly
that of the input, in both the wire-tagged branch and the plain branch. -/
theorem c10_keys_preserved (obj out : List (String × PyVal))
    (h : normalize_record obj = .ok out) : out.map Prod.fst = obj.map Prod.fst := by
  unfold normalize_record at h
  by_cases hany : (obj.any fun kv => isWireTagged kv.2) = true
  · rw [if_pos hany] at h
    exact from_ddb_attr_pairs_keys obj out h
  · rw [if_neg hany] at h
    cases h
    rfl

/-- Witness for C10 on a wire-tagged mapping and on a plain one. -/
theorem c10_keys_preserved_witness :
    ([("a", vInt 12), ("b", vStr "x")] : List (String × PyVal)).map Prod.fst =
      ([("a", vDict [("N", vStr "12")]), ("b", vStr "x")] : List (String × PyVal)).map Prod.fst
    ∧ ([("p", vStr "x")] : List (String × PyVal)).map Prod.fst =
      ([("p", vStr "x")] : List (String × PyVal)).map Prod.fst :=
  ⟨c10_keys_preserved _ _ (by rfl), c10_keys_preserved [("p", vStr "x")] _ (by rfl)⟩

/-- Concatenating the chunks in order reconstructs the original list. -/
theorem chunkList_flatten (c : Nat) : ∀ l : List α, (chunkList c l).flatten = l
  | [] => rfl
  | x :: xs => by
    have ih := chunkList_flatten c (xs.drop (c - 1))
    rw [chunkList_cons, List.flatten_cons, ih]
    simp [List.take_append_drop]
termination_by l => l.length
decreasing_by simp [List.length_drop]; omega

/-- The number of chunks is `⌈length / c⌉` (for `c ≥ 1`). -/
theorem chunkList_length (c : Nat) (hc : 1 ≤ c) :
    ∀ l : List α, (chunkList c l).length = (l.length + c - 1) / c
  | [] => by
    rw [chunkList_nil]
    simp only [List.length_nil]
    have h0 : 0 + c - 1 = c - 1 := by omega
    rw [h0, Nat.div_eq_of_lt (by omega)]
  | x :: xs => by
    have ih := chunkList_length c hc (xs.drop (c - 1))
    rw [chunkList_cons]
    simp only [List.length_cons, ih, List.length_drop]
    have h1 : xs.length + 1 + c - 1 = xs.length + c := by omega
    rw [h1, Nat.add_div_right _ (by omega)]
    rcases le_or_lt (c - 1) xs.length with hle | hlt
    · have h2 : xs.length - (c - 1) + c - 1 = xs.length := by omega
      rw [h2]
    · have h2 : xs.length - (c - 1) = 0 := by omega
      rw [h2]
      have h3 : (0 + c - 1) / c = 0 := Nat.div_eq_of_lt (by omega)
      have h4 : xs.length / c = 0 := Nat.div_eq_of_lt (by omega)
      rw [h3, h4]
termination_by l => l.length
decreasing_by simp [List.length_drop]; omega

/-- Every chunk is nonempty and has at most `c` elements (for `c ≥ 1`). -/
theorem chunkList_chunk_size (c : Nat) (hc : 1 ≤ c) :
    ∀ l : List α, ∀ ch ∈ chunkList c l, 0 < ch.length ∧ ch.length ≤ c
  | [] => by simp [chunkList_nil]
  | x :: xs => by
    intro ch hch
    rw [chunkList_cons] at hch
    rcases List.mem_cons.mp hch with rfl | hmem
    · constructor
      · simp
      · simp only [List.length_cons]
        have := List.length_take_le (c - 1) xs
        omega
    · exact chunkList_chunk_size c hc (xs.drop (c - 1)) ch hmem
termination_by l => l.length
decreasing_by simp [List.length_drop]; omega

/-- All chunks except possibly the last have exactly `c` elements
(for `c ≥ 1`). -/
theorem chunkList_full_chunks (c : Nat) (hc : 1 ≤ c) :
    ∀ l : List α, ∀ i, i + 1 < (chunkList c l).length →
      ∀ ch, (chunkList c l)[i]? = some ch → ch.length = c
  | [] => by simp [chunkList_nil]
  | x :: xs => by
    intro i hi ch hch
    rw [chunkList_cons] at hi hch
    cases i with
    | zero =>
      simp only [List.getElem?_cons_zero, Option.some.injEq] at hch
      subst hch
      simp only [List.length_cons] at hi ⊢
      have hne : chunkList c (xs.drop (c - 1)) ≠ [] := by
        intro h0
        rw [h0] at hi
        simp at hi
      have hxs : xs.drop (c - 1) ≠ [] := by
        intro h0
        rw [h0, chunkList_nil] at hne
        exact hne rfl
      have hlen : c - 1 ≤ xs.length := by
        by_contra hlt
        push_neg at hlt
        exact hxs (List.drop_eq_nil_of_le (by omega))
      rw [List.length_take]
      omega
    | succ i =>
      simp only [List.getElem?_cons_succ] at hch
      simp only [List.length_cons] at hi
      exact chunkList_full_chunks c hc (xs.drop (c - 1)) i (by omega) ch hch
termination_by l => l.length
decreasing_by simp [List.length_drop]; omega

/-- One trace entry is produced per chunk. -/
theorem write_chunks_length {σ : Type} (backend : σ → RequestItems → RequestItems × σ)
    (table : String) (R : Nat) :
    ∀ (chunks : List (List DRecord)) (s : σ),
      (write_chunks backend table R s chunks).1.length = chunks.length
  | [], _ => rfl
  | _ :: rest, s => by
    simp only [write_chunks, List.length_cons]
    rw [write_chunks_length backend table R rest _]

/-- C3.  Chunking: for `1 ≤ C ≤ 25`, `batch_write_items` partitions the
record list into exactly `⌈N / C⌉` ordered chunks, each nonempty of size
at most `C`, only the last possibly shorter, whose in-order concatenation
is the original list; one batch-trace entry is produced per chunk. -/
theorem c3_chunking (records : List DRecord) (C : Nat) (hC1 : 1 ≤ C) (hC25 : C ≤ 25) :
    (chunkList C records).length = (records.length + C - 1) / C
    ∧ (chunkList C records).flatten = records
    ∧ (∀ ch ∈ chunkList C records, 0 < ch.length ∧ ch.length ≤ C)
    ∧ (∀ i, i + 1 < (chunkList C records).length →
        ∀ ch, (chunkList C records)[i]? = some ch → ch.length = C)
    ∧ (∀ (σ : Type) (backend : σ → RequestItems → RequestItems × σ) (s₀ : σ)
        (table : String) (R : Nat),
        (batch_write_items backend s₀ table records C R).1.length =
          (chunkList C records).length) :=
  ⟨chunkList_length C hC1 records, chunkList_flatten C records,
   chunkList_chunk_size C hC1 records, chunkList_full_chunks C hC1 records,
   fun _ backend s₀ table R => write_chunks_length backend table R _ s₀⟩

/-- Witness for C3: seven records in chunks of three. -/
theorem c3_chunking_witness :
    (chunkList 3 [[("a", vInt 1)], [("a", vInt 2)], [("a", vInt 3)], [("a", vInt 4)],
        [("a", vInt 5)], [("a", vInt 6)], [("a", vInt 7)]]).length = 3
    ∧ (chunkList 3 [[("a", vInt 1)], [("a", vInt 2)], [("a", vInt 3)], [("a", vInt 4)],
        [("a", vInt 5)], [("a", vInt 6)], [("a", vInt 7)]]).flatten =
      [[("a", vInt 1)], [("a", vInt 2)], [("a", vInt 3)], [("a", vInt 4)],
        [("a", vInt 5)], [("a", vInt 6)], [("a", vInt 7)]] := by
  have h := c3_chunking [[("a", vInt 1)], [("a", vInt 2)], [("a", vInt 3)], [("a", vInt 4)],
    [("a", vInt 5)], [("a", vInt 6)], [("a", vInt 7)]] 3 (by omega) (by omega)
  exact ⟨h.1, h.2.1⟩

/-- The first submission for a nonempty chunk has a nonzero item count. -/
theorem initialRequest_count (table : String) (chunk : List DRecord)
    (h : chunk ≠ []) : unprocessedCount (initialRequest table chunk) ≠ 0 := by
  simp [initialRequest, unprocessedCount, putRequest]
  exact h

/-- Under a backend that always echoes every submitted item back as
unprocessed, the retry loop submits the same request map exactly once per
available attempt. -/
theorem retry_loop_echo_calls {σ : Type} (backend : σ → RequestItems → RequestItems × σ)
    (hB : ∀ s r, (backend s r).1 = r) :
    ∀ (n : Nat) (s : σ) (ri : RequestItems) (b : ℚ), unprocessedCount ri ≠ 0 →
      (retry_loop backend n s ri b).1 = List.replicate n ri := by
  intro n
  induction n with
  | zero => intro s ri b h; rfl
  | succ n ih =>
    intro s ri b h
    simp only [retry_loop, hB, if_neg h, List.replicate_succ, List.cons.injEq]
    exact ⟨trivial, ih _ _ _ h⟩

/-- Every chunk produced by the chunker is nonempty. -/
theorem chunkList_ne_nil (c : Nat) :
    ∀ l : List α, ∀ ch ∈ chunkList c l, ch ≠ []
  | [] => by simp [chunkList_nil]
  | x :: xs => by
    intro ch hch
    rw [chunkList_cons] at hch
    rcases List.mem_cons.mp hch with rfl | hmem
    · simp
    · exact chunkList_ne_nil c (xs.drop (c - 1)) ch hmem
termination_by l => l.length
decreasing_by simp [List.length_drop]; omega

/-- Echo-backend characterisation of the full per-chunk call trace. -/
theorem write_chunks_echo_calls {σ : Type} (backend : σ → RequestItems → RequestItems × σ)
    (hB : ∀ s r, (backend s r).1 = r) (table : String) (R : Nat) :
    ∀ (chunks : List (List DRecord)) (s : σ), (∀ ch ∈ chunks, ch ≠ []) →
      (write_chunks backend table R s chunks).1.map Prod.fst =
        chunks.map (fun ch => List.replicate R (initialRequest table ch))
  | [], _, _ => rfl
  | chunk :: rest, s, hne => by
    simp only [write_chunks, List.map_cons, List.cons.injEq]
    constructor
    · exact retry_loop_echo_calls backend hB R s _ _
        (initialRequest_count table chunk (hne chunk (List.mem_cons_self _ _)))
    · exact write_chunks_echo_calls backend hB table R rest _
        (fun ch hch => hne ch (List.mem_cons_of_mem _ hch))

/-- C2.  Retry termination and silent partial-success: with a backend
that always reports every submitted item as unprocessed, for every chunk
the writer issues exactly `max_retries` batch-write calls — the first
being the chunk's encoded submission and every resubmission being the
previous response's unprocessed set (here: the same request map) — then
stops retrying that chunk without raising (the model is total) and
proceeds to the next chunk, producing one trace entry per chunk in
order. -/
theorem c2_retry_termination {σ : Type} (backend : σ → RequestItems → RequestItems × σ)
    (hB : ∀ s r, (backend s r).1 = r) (s₀ : σ) (table : String)
    (records : List DRecord) (C R : Nat) (hC : 1 ≤ C) (hR : 1 ≤ R) :
    (batch_write_items backend s₀ table records C R).1.map Prod.fst =
      (chunkList C records).map (fun ch => List.replicate R (initialRequest table ch)) :=
  write_chunks_echo_calls backend hB table R (chunkList C records) s₀
    (chunkList_ne_nil C records)

/-- Witness for C2: one two-record chunk, three attempts, echo backend. -/
theorem c2_retry_termination_witness :
    (batch_write_items (fun (s : Unit) (r : RequestItems) => (r, s)) () "notes"
        [[("summarize_job_name", vStr "job-1")], [("summarize_job_name", vStr "job-2")]]
        25 3).1.map Prod.fst =
      (chunkList 25 [[("summarize_job_name", vStr "job-1")],
        [("summarize_job_name", vStr "job-2")]]).map
        (fun ch => List.replicate 3 (initialRequest "notes" ch)) :=
  c2_retry_termination (fun s r => (r, s)) (fun _ _ => rfl) () "notes"
    [[("summarize_job_name", vStr "job-1")], [("summarize_job_name", vStr "job-2")]]
    25 3 (by omega) (by omega)

/-- Doubling a capped backoff equals capping the doubled backoff. -/
theorem capDouble (x : ℚ) : min (min x 5 * 2) 5 = min (x * 2) 5 := by
  rcases le_total x 5 with h | h
  · rw [min_eq_left h]
  · rw [min_eq_right h]
    rw [min_eq_right (by linarith), min_eq_right (by linarith)]

/-- Shifting the closed form one step. -/
theorem minDouble (b : ℚ) (j : Nat) :
    min (min (b * 2) 5 * 2 ^ j) 5 = min (b * 2 ^ (j + 1)) 5 := by
  rcases le_total (b * 2) 5 with h | h
  · rw [min_eq_left h, pow_succ]
    ring_nf
  · have h2j : (1:ℚ) ≤ 2 ^ j := one_le_pow₀ (by norm_num)
    have hp : (0:ℚ) ≤ 2 ^ j := by positivity
    have k1 : (5:ℚ) * 2 ^ j ≤ b * 2 * 2 ^ j := mul_le_mul_of_nonneg_right h hp
    have k2 : (5:ℚ) ≤ 5 * 2 ^ j := by nlinarith
    have k3 : (5:ℚ) ≤ b * 2 ^ (j + 1) := by
      have hr : b * 2 ^ (j + 1) = b * 2 * 2 ^ j := by ring
      rw [hr]
      linarith
    rw [min_eq_right h, min_eq_right k2, min_eq_right k3]

/-- Closed form for the sleep durations of the retry loop: starting from
backoff `b ≤ 5`, the `j`-th recorded sleep is `min (b * 2 ^ j) 5`. -/
theorem retry_loop_sleeps {σ : Type} (backend : σ → RequestItems → RequestItems × σ) :
    ∀ (n : Nat) (s : σ) (ri : RequestItems) (b : ℚ), 0 ≤ b → b ≤ 5 →
      ∀ j d, ((retry_loop backend n s ri b).2.1)[j]? = some d → d = min (b * 2 ^ j) 5 := by
  intro n
  induction n with
  | zero => intro s ri b hb0 hb j d h; simp [retry_loop] at h
  | succ n ih =>
    intro s ri b hb0 hb j d h
    simp only [retry_loop] at h
    by_cases h0 : unprocessedCount (backend s ri).1 = 0
    · rw [if_pos h0] at h
      simp at h
    · rw [if_neg h0] at h
      cases j with
      | zero =>
        simp only [List.getElem?_cons_zero, Option.some.injEq] at h
        subst h
        rw [pow_zero, mul_one, min_eq_left hb]
      | succ j =>
        simp only [List.getElem?_cons_succ] at h
        have hr := ih (backend s ri).2 (backend s ri).1 (min (b * 2) 5)
          (le_min (by linarith) (by norm_num)) (min_le_right _ _) j d h
        rw [hr, minDouble b j]

/-- Every trace entry's sleep list comes from a retry loop started at
backoff `0.2`. -/
theorem write_chunks_sleeps {σ : Type} (backend : σ → RequestItems → RequestItems × σ)
    (table : String) (R : Nat) :
    ∀ (chunks : List (List DRecord)) (s : σ),
      ∀ entry ∈ (write_chunks backend table R s chunks).1,
        ∃ (s' : σ) (ri : RequestItems), entry.2 = (retry_loop backend R s' ri (1 / 5)).2.1 := by
  intro chunks
  induction chunks with
  | nil => intro s entry h; simp [write_chunks] at h
  | cons chunk rest ih =>
    intro s entry h
    simp only [write_chunks] at h
    rcases List.mem_cons.mp h with rfl | hmem
    · exact ⟨s, initialRequest table chunk, rfl⟩
    · exact ih _ entry hmem

/-- C8.  Backoff monotonicity and cap: within each chunk's retry loop the
sleep sequence has closed form `min (0.2 * 2 ^ j) 5`; it starts at `0.2`
time-units, each subsequent delay is the double of the previous one
capped at `5`, the sequence is non-decreasing, and no delay exceeds `5`
time-units. -/
theorem c8_backoff {σ : Type} (backend : σ → RequestItems → RequestItems × σ)
    (s₀ : σ) (table : String) (records : List DRecord) (C R : Nat) :
    ∀ entry ∈ (batch_write_items backend s₀ table records C R).1,
      (∀ j d, entry.2[j]? = some d → d = min ((1 / 5 : ℚ) * 2 ^ j) 5)
      ∧ (∀ d, entry.2[0]? = some d → d = 1 / 5)
      ∧ (∀ j d e, entry.2[j]? = some d → entry.2[j + 1]? = some e →
          e = min (d * 2) 5 ∧ d ≤ e)
      ∧ (∀ d ∈ entry.2, d ≤ 5) := by
  intro entry hmem
  obtain ⟨s', ri, he⟩ := write_chunks_sleeps backend table R _ s₀ entry hmem
  have key : ∀ j d, entry.2[j]? = some d → d = min ((1 / 5 : ℚ) * 2 ^ j) 5 := by
    intro j d h
    rw [he] at h
    exact retry_loop_sleeps backend R s' ri (1 / 5) (by norm_num) (by norm_num) j d h
  refine ⟨key, ?_, ?_, ?_⟩
  · intro d h
    rw [key 0 d h]
    norm_num
  · intro j d e hd hej
    have h1 := key j d hd
    have h2 := key (j + 1) e hej
    constructor
    · rw [h2, h1]
      have hpow : (1 / 5 : ℚ) * 2 ^ (j + 1) = 1 / 5 * 2 ^ j * 2 := by ring
      rw [hpow, capDouble ((1 / 5 : ℚ) * 2 ^ j)]
    · rw [h1, h2]
      refine min_le_min ?_ (le_refl 5)
      have : (1:ℚ) ≤ 2 := by norm_num
      rw [pow_succ]
      nlinarith [pow_pos (by norm_num : (0:ℚ) < 2) j]
  · intro d hd
    obtain ⟨j, hj⟩ := List.mem_iff_getElem?.mp hd
    rw [key j d hj]
    exact min_le_right _ _

/-- Witness for C8: one chunk driven through two failing attempts by an
echo backend sleeps `0.2` and then `min (0.2 * 2) 5 = 0.4`. -/
theorem c8_backoff_witness :
    ((1 : ℚ) / 5 = min ((1 / 5 : ℚ) * 2 ^ 0) 5)
    ∧ (min ((1 : ℚ) / 5 * 2) 5 = min ((1 / 5 : ℚ) * 2 ^ 1) 5)
    ∧ (min ((1 : ℚ) / 5 * 2) 5 = min ((1 / 5 : ℚ) * 2) 5
        ∧ (1 : ℚ) / 5 ≤ min ((1 : ℚ) / 5 * 2) 5) := by
  have h := c8_backoff (fun (s : Unit) (r : RequestItems) => (r, s)) () "t"
    [[("summarize_job_name", vStr "j1")]] 25 2
    (List.replicate 2 (initialRequest "t" [[("summarize_job_name", vStr "j1")]]),
      [(1 : ℚ) / 5, min ((1 : ℚ) / 5 * 2) 5])
    (List.Mem.head _)
  exact ⟨h.1 0 (1 / 5) rfl, h.1 1 _ rfl, h.2.2.1 0 _ _ rfl rfl⟩

/-- Setting an existing key replaces its value in place. -/
theorem lookupKey_setKey : ∀ (r : DRecord) (k : String) (v w : PyVal),
    lookupKey r k = some w → lookupKey (setKey r k v) k = some v := by
  intro r k v
  induction r with
  | nil => intro w h; simp [lookupKey] at h
  | cons kv rest ih =>
    intro w h
    by_cases hk : kv.1 = k
    · simp [lookupKey, setKey, List.find?_cons, hk]
    · simp only [setKey, List.map_cons, if_neg hk]
      simp only [lookupKey, List.find?_cons, decide_eq_false hk] at h ⊢
      exact ih w h

/-- C9.  Pre-write filter and coercion in `main`: exactly the records
lacking `summarize_job_name` are dropped before the writer is called (on
the spec's example only the second record survives), the writer input is
the filtered list with the secondary key coerced, and a surviving record
whose `patient_id` is not a string has that value replaced in place by
its `str()` form. -/
theorem c9_prefilter_coercion :
    (prepare_records [[("patient_id", vStr "p1")], [("summarize_job_name", vStr "job-3")]] =
      [[("summarize_job_name", vStr "job-3")]])
    ∧ (∀ (records : List DRecord) (r : DRecord),
        r ∈ filter_records records ↔ r ∈ records ∧ hasKey r "summarize_job_name" = true)
    ∧ (∀ records : List DRecord,
        prepare_records records = (filter_records records).map coerce_patient_id)
    ∧ (∀ (r : DRecord) (v : PyVal), lookupKey r "patient_id" = some v → isStrVal v = false →
        coerce_patient_id r = setKey r "patient_id" (vStr (pyStrOf v)))
    ∧ (∀ (r : DRecord) (v : PyVal), lookupKey r "patient_id" = some v → isStrVal v = false →
        lookupKey (coerce_patient_id r) "patient_id" = some (vStr (pyStrOf v))) := by
  have hc : ∀ (r : DRecord) (v : PyVal), lookupKey r "patient_id" = some v →
      isStrVal v = false → coerce_patient_id r = setKey r "patient_id" (vStr (pyStrOf v)) := by
    intro r v h hs
    unfold coerce_patient_id
    rw [h]
    simp [hs]
  refine ⟨rfl, ?_, fun _ => rfl, hc, ?_⟩
  · intro records r
    exact List.mem_filter
  · intro r v h hs
    rw [hc r v h hs]
    exact lookupKey_setKey r "patient_id" (vStr (pyStrOf v)) v h

/-- Witness for C9: the spec's filtering example, and coercion of an
integer `patient_id`. -/
theorem c9_prefilter_coercion_witness :
    coerce_patient_id [("summarize_job_name", vStr "job-1"), ("patient_id", vInt 42)] =
      setKey [("summarize_job_name", vStr "job-1"), ("patient_id", vInt 42)] "patient_id"
        (vStr (pyStrOf (vInt 42)))
    ∧ ([("summarize_job_name", vStr "job-3")] : DRecord) ∈
        filter_records [[("patient_id", vStr "p1")], [("summarize_job_name", vStr "job-3")]] :=
  ⟨c9_prefilter_coercion.2.2.2.1 _ (vInt 42) rfl rfl,
   (c9_prefilter_coercion.2.1 _ _).mpr ⟨List.mem_cons_of_mem _ (List.Mem.head _), rfl⟩⟩
